import Mathlib

/-!
Shallow embedding of `rul_pm/results/results.py`: life segmentation of a
concatenated RUL signal, reconstruction of an implied time axis per life,
per-life maintenance metrics (end of life, maintenance point, unexploited
lifetime, unexpected break), binned error aggregation (CVResults) and the
cross-validation sweep aggregators (`metric_J_from_cv`, `metric_J`).

Numeric values are modelled as rationals (`ℚ`); numpy arrays as `List ℚ`.
A possibly-NaN predicted array is modelled as `List (Option ℚ)` where
`none` stands for NaN.  Python functions that raise are modelled with
`Except String`.
-/

namespace RulPm

/-- `np.where(p(l))[0]`: the indices of `l` whose element satisfies `p`,
in increasing order. -/
def whereIdxs (p : ℚ → Bool) : List ℚ → List ℕ
  | [] => []
  | x :: xs =>
    if p x then 0 :: (whereIdxs p xs).map (fun i => i + 1)
    else (whereIdxs p xs).map (fun i => i + 1)

/-- `np.diff`: first difference of a sequence. -/
def diff : List ℚ → List ℚ
  | [] => []
  | [_] => []
  | x :: y :: xs => (y - x) :: diff (y :: xs)

/-- `np.cumsum` with a running accumulator. -/
def cumsumFrom (s : ℚ) : List ℚ → List ℚ
  | [] => []
  | x :: xs => (s + x) :: cumsumFrom (s + x) xs

/-- `np.cumsum`: cumulative sums of a sequence. -/
def cumsum (l : List ℚ) : List ℚ := cumsumFrom 0 l

/-- `split_lives_indices` (results.py:379-401): breakpoints are the positions
of strictly positive first differences, with `0` prepended and `len(y_true)`
appended; each consecutive pair `(a, b)` yields the range `(a+1, b)`, and
empty ranges are skipped.  A range is represented by its endpoints. -/
def split_lives_indices (y : List ℚ) : List (ℕ × ℕ) :=
  let lives_indices := [0] ++ whereIdxs (fun d => decide (0 < d)) (diff y) ++ [y.length]
  (lives_indices.zip lives_indices.tail).filterMap
    (fun ab => if ab.1 + 1 < ab.2 then some (ab.1 + 1, ab.2) else none)

/-- The same computation written from the specification text: boundaries are
the positions of strictly positive first differences; breakpoints prefix `0`
and suffix the length; each consecutive pair `(a, b)` emits `(a+1, b)`;
ranges of length zero are dropped. -/
def split_lives_indices_fromSpec (y : List ℚ) : List (ℕ × ℕ) :=
  let boundaries := whereIdxs (fun d => decide (0 < d)) (diff y)
  let breakpoints := [0] ++ boundaries ++ [y.length]
  ((breakpoints.zip breakpoints.tail).map (fun ab => (ab.1 + 1, ab.2))).filter
    (fun r => decide (r.1 < r.2))

theorem filter_map_eq_filterMap {α β : Type} (f : α → β) (p : β → Bool) (l : List α) :
    (l.map f).filter p = l.filterMap (fun x => if p (f x) then some (f x) else none) := by
  induction l with
  | nil => rfl
  | cons a l ih =>
    by_cases h : p (f a) <;> simp [List.filter, h, ih]

/-- Insert a value into an already sorted list. -/
def insertSorted (x : ℚ) : List ℚ → List ℚ
  | [] => [x]
  | y :: ys => if x ≤ y then x :: y :: ys else y :: insertSorted x ys

/-- Sort a list of rationals in increasing order (insertion sort). -/
def sortQ (l : List ℚ) : List ℚ := l.foldr insertSorted []

/-- `np.median`: middle element of the sorted data for odd length, average of
the two middle elements for even length. -/
def median (l : List ℚ) : ℚ :=
  let s := sortQ l
  let n := s.length
  if n % 2 = 1 then s.getD (n / 2) 0
  else (s.getD (n / 2 - 1) 0 + s.getD (n / 2) 0) / 2

/-- Numpy slice assignment `l[a : a + len(v)] = v`. -/
def setSlice (l : List ℚ) (a : ℕ) (v : List ℚ) : List ℚ :=
  l.take a ++ v ++ l.drop (a + v.length)

/-- `FittedLife._degrading_start` (results.py:220-244): `0` when no threshold
is given, otherwise the first index where the true value drops below the
threshold (`0` again when no such index exists). -/
def _degrading_start (y_true : List ℚ) (RUL_threshold : Option ℚ) : ℕ :=
  match RUL_threshold with
  | none => 0
  | some t =>
    match whereIdxs (fun v => decide (v < t)) y_true with
    | [] => 0
    | i :: _ => i

/-- `FittedLife._compute_time` (results.py:246-276): `time_diff` is the first
difference of the reversed true sequence from `degrading_start` on; a zero
array of the input's length gets its positions `0..degrading_start` filled
with the median of `time_diff` (or `1` when `time_diff` is empty) when
`degrading_start > 0`, its remaining positions filled with `time_diff`, and
is then cumulatively summed. -/
def _compute_time (y_true : List ℚ) (degrading_start : ℕ) : List ℚ :=
  let time_diff := diff ((y_true.drop degrading_start).reverse)
  let time0 : List ℚ := List.replicate y_true.length 0
  let time1 :=
    if 0 < degrading_start then
      setSlice time0 0 (List.replicate (min (degrading_start + 1) y_true.length)
        (if 0 < time_diff.length then median time_diff else 1))
    else time0
  let time2 := setSlice time1 (degrading_start + 1) time_diff
  cumsum time2

/-- `FittedLife.compute_time_feature` (results.py:214-218). -/
def compute_time_feature (y_true : List ℚ) (RUL_threshold : Option ℚ) : ℕ × List ℚ :=
  let degrading_start := _degrading_start y_true RUL_threshold
  (degrading_start, _compute_time y_true degrading_start)

/-- The data of a constructed `FittedLife` (results.py:166-212) that the
point metrics read: the raw sequences, the reconstructed (or supplied) time
axis and the degrading-start index.  The fitted piecewise-linear curves are
produced by the external fitter and are not read by any metric modelled
here. -/
structure FittedLife where
  y_true : List ℚ
  y_pred : List ℚ
  time : List ℚ
  degrading_start : ℕ

/-- `FittedLife.__init__` with `time=None`: the time axis and degrading
start come from `compute_time_feature`. -/
def FittedLife.ofTimeNone (y_true y_pred : List ℚ) (RUL_threshold : Option ℚ) :
    FittedLife :=
  { y_true := y_true, y_pred := y_pred,
    time := (compute_time_feature y_true RUL_threshold).2,
    degrading_start := (compute_time_feature y_true RUL_threshold).1 }

/-- `FittedLife.end_of_life` (results.py:313-318): `time[z[0]]` for
`z = np.where(y_true == 0)[0]` when `z` is nonempty, otherwise
`time[-1] + y_true[-1]`. -/
def FittedLife.end_of_life (L : FittedLife) : ℚ :=
  match whereIdxs (fun v => decide (v = 0)) L.y_true with
  | [] => L.time.getD (L.time.length - 1) 0 + L.y_true.getD (L.y_true.length - 1) 0
  | i :: _ => L.time.getD i 0

/-- `FittedLife.predicted_end_of_life` (results.py:306-311): same as
`end_of_life` with `y_pred` in place of `y_true`. -/
def FittedLife.predicted_end_of_life (L : FittedLife) : ℚ :=
  match whereIdxs (fun v => decide (v = 0)) L.y_pred with
  | [] => L.time.getD (L.time.length - 1) 0 + L.y_pred.getD (L.y_pred.length - 1) 0
  | i :: _ => L.time.getD i 0

/-- `FittedLife.maintenance_point` (results.py:320-335). -/
def FittedLife.maintenance_point (L : FittedLife) (m : ℚ) : ℚ :=
  L.predicted_end_of_life - m

/-- `FittedLife.unexploited_lifetime` (results.py:337-355). -/
def FittedLife.unexploited_lifetime (L : FittedLife) (m : ℚ) : ℚ :=
  if L.maintenance_point m < L.end_of_life then L.end_of_life - L.maintenance_point m
  else 0

/-- `FittedLife.unexpected_break` (results.py:357-376). -/
def FittedLife.unexpected_break (L : FittedLife) (m : ℚ) : Bool :=
  if L.maintenance_point m < L.end_of_life then false else true

theorem whereIdxs_nil_of (p : ℚ → Bool) (l : List ℚ)
    (h : ∀ i, i < l.length → p (l.getD i 0) = false) : whereIdxs p l = [] := by
  induction l with
  | nil => rfl
  | cons x xs ih =>
    have hx : p x = false := h 0 (by simp)
    have hxs : whereIdxs p xs = [] := ih (fun i hi => by
      have := h (i + 1) (by simp only [List.length_cons]; omega)
      simpa using this)
    simp [whereIdxs, hx, hxs]

theorem whereIdxs_head_of (p : ℚ → Bool) (l : List ℚ) (i : ℕ)
    (hi : i < l.length) (hp : p (l.getD i 0) = true)
    (hmin : ∀ j, j < i → p (l.getD j 0) = false) :
    ∃ t, whereIdxs p l = i :: t := by
  induction l generalizing i with
  | nil => simp at hi
  | cons x xs ih =>
    cases i with
    | zero =>
      simp only [List.getD_cons_zero] at hp
      exact ⟨(whereIdxs p xs).map (· + 1), by simp [whereIdxs, hp]⟩
    | succ n =>
      have hx : p x = false := by simpa using hmin 0 (Nat.succ_pos n)
      obtain ⟨t, ht⟩ := ih n (by simpa using hi) (by simpa using hp)
        (fun j hj => by simpa using hmin (j + 1) (by omega))
      exact ⟨t.map (· + 1), by simp [whereIdxs, hx, ht]⟩

theorem split_lives_indices_example :
    split_lives_indices [3, 2, 1, 5, 4, 3, 2, 1] = [(1, 2), (3, 8)] := by
  norm_num [split_lives_indices, whereIdxs, diff, List.filterMap_cons]

/-- C1: `split_lives_indices` agrees with the specification's description;
every emitted range is nonempty; and on `[3,2,1,5,4,3,2,1]` the retained
ranges are `(1,2)` and `(3,8)`, i.e. index sets `{1}` and `{3,4,5,6,7}`. -/
theorem split_lives_indices_correct :
    (∀ y : List ℚ, split_lives_indices_fromSpec y = split_lives_indices y) ∧
    (∀ (y : List ℚ) (r : ℕ × ℕ), r ∈ split_lives_indices y → r.1 < r.2) ∧
    split_lives_indices [3, 2, 1, 5, 4, 3, 2, 1] = [(1, 2), (3, 8)] ∧
    (split_lives_indices [3, 2, 1, 5, 4, 3, 2, 1]).map
      (fun r => List.range' r.1 (r.2 - r.1)) = [[1], [3, 4, 5, 6, 7]] := by
  refine ⟨?_, ?_, split_lives_indices_example, ?_⟩
  · intro y
    simp only [split_lives_indices_fromSpec, split_lives_indices]
    rw [filter_map_eq_filterMap]
    simp
  · intro y r hr
    simp only [split_lives_indices, List.mem_filterMap] at hr
    obtain ⟨ab, _, hab⟩ := hr
    by_cases h : ab.1 + 1 < ab.2
    · rw [if_pos h] at hab
      obtain rfl := Option.some.inj hab
      exact h
    · rw [if_neg h] at hab
      cases hab
  · rw [split_lives_indices_example]
    decide

/-- Witness for C1 at the concrete input from the claim. -/
theorem split_lives_indices_correct_witness : (1 : ℕ) < 2 :=
  split_lives_indices_correct.2.1 [3, 2, 1, 5, 4, 3, 2, 1] (1, 2)
    (by rw [split_lives_indices_example]; exact List.mem_cons_self _ _)

/-- A concrete life built through the constructor path with `time=None`:
`y_true = y_pred = [2, 1]`, reconstructed time axis `[0, 1]`, end of life
and predicted end of life both `1 + 1 = 2`. -/
def exampleLife : FittedLife := FittedLife.ofTimeNone [2, 1] [2, 1] none

theorem exampleLife_break_zero : exampleLife.unexpected_break 0 = true := by
  norm_num [exampleLife, FittedLife.ofTimeNone, compute_time_feature,
    _degrading_start, _compute_time, diff, setSlice, cumsum, cumsumFrom,
    FittedLife.unexpected_break, FittedLife.maintenance_point,
    FittedLife.predicted_end_of_life, FittedLife.end_of_life, whereIdxs]

theorem exampleLife_break_one : exampleLife.unexpected_break 1 = false := by
  norm_num [exampleLife, FittedLife.ofTimeNone, compute_time_feature,
    _degrading_start, _compute_time, diff, setSlice, cumsum, cumsumFrom,
    FittedLife.unexpected_break, FittedLife.maintenance_point,
    FittedLife.predicted_end_of_life, FittedLife.end_of_life, whereIdxs]

/-- C2 as stated is false: `unexpected_break` is not monotone upward in the
horizon.  `maintenance_point(m) = predicted_end_of_life() - m`, so a larger
`m` moves the maintenance point earlier.  On the life with
`y_true = y_pred = [2, 1]`, `unexpected_break 0 = true` but
`unexpected_break 1 = false` although `1 ≥ 0`. -/
theorem unexpected_break_not_monotone_up :
    ¬ ∀ (L : FittedLife) (m1 m2 : ℚ),
        L.unexpected_break m1 = true → m1 ≤ m2 → L.unexpected_break m2 = true := by
  intro h
  have hc := h exampleLife 0 1 exampleLife_break_zero (by norm_num)
  rw [exampleLife_break_one] at hc
  cases hc

/-- C2 amended: `unexpected_break` is antitone in the horizon: if
`unexpected_break m1` is true then `unexpected_break m2` is true for all
`m2 ≤ m1` (a larger fault horizon moves the maintenance point earlier,
before end-of-life). -/
theorem unexpected_break_antitone (L : FittedLife) (m1 m2 : ℚ)
    (h : L.unexpected_break m1 = true) (hm : m2 ≤ m1) :
    L.unexpected_break m2 = true := by
  simp only [FittedLife.unexpected_break, FittedLife.maintenance_point] at h ⊢
  by_cases h1 : L.predicted_end_of_life - m1 < L.end_of_life
  · simp [h1] at h
  · by_cases h2 : L.predicted_end_of_life - m2 < L.end_of_life
    · exact absurd (by linarith) h1
    · simp [h2]

/-- Witness for the amended C2. -/
theorem unexpected_break_antitone_witness : exampleLife.unexpected_break 0 = true :=
  unexpected_break_antitone exampleLife 0 0 exampleLife_break_zero le_rfl

/-- C3: `unexploited_lifetime` and `unexpected_break` are mutually
exclusive: the former is `0` whenever the latter is true, a positive
unexploited lifetime forces `unexpected_break` to be false, and (in
particular on the non-degenerate case `maintenance_point m ≠ end_of_life`)
the two are never both positive/true for the same `m`. -/
theorem unexploited_unexpected_exclusive (L : FittedLife) (m : ℚ) :
    (L.unexpected_break m = true → L.unexploited_lifetime m = 0) ∧
    (0 < L.unexploited_lifetime m → L.unexpected_break m = false) ∧
    (L.maintenance_point m ≠ L.end_of_life →
      ¬(0 < L.unexploited_lifetime m ∧ L.unexpected_break m = true)) := by
  simp only [FittedLife.unexpected_break, FittedLife.unexploited_lifetime]
  by_cases h : L.maintenance_point m < L.end_of_life
  · simp [h]
  · simp [h]

/-- Witness for C3. -/
theorem unexploited_unexpected_exclusive_witness :
    exampleLife.unexploited_lifetime 0 = 0 :=
  (unexploited_unexpected_exclusive exampleLife 0).1 exampleLife_break_zero

theorem diff_length (l : List ℚ) : (diff l).length = l.length - 1 := by
  induction l with
  | nil => rfl
  | cons x xs ih =>
    cases xs with
    | nil => rfl
    | cons y ys =>
      simp only [diff, List.length_cons] at ih ⊢
      omega

theorem _compute_time_zero (y : List ℚ) (hy : y ≠ []) :
    _compute_time y 0 = cumsum (0 :: diff y.reverse) := by
  have hn : 1 ≤ y.length := List.length_pos.mpr hy
  have htd : (diff y.reverse).length = y.length - 1 := by
    rw [diff_length, List.length_reverse]
  simp only [_compute_time, List.drop_zero, setSlice, lt_irrefl, if_false,
    List.take_replicate, List.drop_replicate, zero_add, htd]
  have h1 : min 1 y.length = 1 := by omega
  have h2 : y.length - (1 + (y.length - 1)) = 0 := by omega
  rw [h1, h2]
  simp

theorem _compute_time_pos (y : List ℚ) (ds : ℕ) (h1 : 0 < ds) (h2 : ds < y.length) :
    _compute_time y ds =
      cumsum (List.replicate (ds + 1)
          (if 0 < (diff ((y.drop ds).reverse)).length
            then median (diff ((y.drop ds).reverse)) else 1)
        ++ diff ((y.drop ds).reverse)) := by
  have htd : (diff ((y.drop ds).reverse)).length = y.length - ds - 1 := by
    rw [diff_length, List.length_reverse, List.length_drop]
  simp only [_compute_time, setSlice, h1, if_true, List.take_nil, List.take_replicate,
    List.drop_replicate, zero_add, List.length_replicate, Nat.min_self,
    Nat.zero_min, List.replicate_zero, List.nil_append]
  have hmin : min (ds + 1) y.length = ds + 1 := by omega
  rw [hmin]
  have hleft : (List.replicate (ds + 1)
      (if 0 < (diff ((y.drop ds).reverse)).length
        then median (diff ((y.drop ds).reverse)) else 1) ++
      List.replicate (y.length - (ds + 1)) (0 : ℚ)).take (ds + 1) =
      List.replicate (ds + 1)
        (if 0 < (diff ((y.drop ds).reverse)).length
          then median (diff ((y.drop ds).reverse)) else 1) := by
    have := List.take_left
      (List.replicate (ds + 1)
        (if 0 < (diff ((y.drop ds).reverse)).length
          then median (diff ((y.drop ds).reverse)) else 1))
      (List.replicate (y.length - (ds + 1)) (0 : ℚ))
    rwa [List.length_replicate] at this
  have hright : (List.replicate (ds + 1)
      (if 0 < (diff ((y.drop ds).reverse)).length
        then median (diff ((y.drop ds).reverse)) else 1) ++
      List.replicate (y.length - (ds + 1)) (0 : ℚ)).drop
        (ds + 1 + (diff ((y.drop ds).reverse)).length) = [] := by
    apply List.drop_eq_nil_of_le
    simp only [List.length_append, List.length_replicate]
    omega
  rw [hleft, hright, List.append_nil]

theorem compute_time_feature_example :
    compute_time_feature [5, 4, 3, 2, 1, 0] none = (0, [0, 1, 2, 3, 4, 5]) := by
  norm_num [compute_time_feature, _degrading_start, _compute_time, diff,
    setSlice, cumsum, cumsumFrom]

/-- C4: for every nonempty life with no threshold, `degrading_start = 0`
and the time axis is the cumulative sum of `0` followed by the first
difference of the reversed true sequence; on `[5,4,3,2,1,0]` the axis is
`[0,1,2,3,4,5]`.  For every in-range `degrading_start > 0`, positions
`0..degrading_start` of the step sequence are the median of the
reversed-sequence differences (`1` when that difference array is empty)
before cumulative summation. -/
theorem compute_time_feature_correct (y : List ℚ) (hy : y ≠ []) :
    compute_time_feature y none = (0, cumsum (0 :: diff y.reverse)) ∧
    compute_time_feature [5, 4, 3, 2, 1, 0] none = (0, [0, 1, 2, 3, 4, 5]) ∧
    (∀ ds : ℕ, 0 < ds → ds < y.length →
      _compute_time y ds =
        cumsum (List.replicate (ds + 1)
            (if 0 < (diff ((y.drop ds).reverse)).length
              then median (diff ((y.drop ds).reverse)) else 1)
          ++ diff ((y.drop ds).reverse))) := by
  refine ⟨?_, compute_time_feature_example, fun ds h1 h2 => _compute_time_pos y ds h1 h2⟩
  simp only [compute_time_feature, _degrading_start]
  rw [_compute_time_zero y hy]

/-- Witness for C4 at `y = [5,4,3,2,1,0]`. -/
theorem compute_time_feature_correct_witness :
    compute_time_feature [5, 4, 3, 2, 1, 0] none = (0, [0, 1, 2, 3, 4, 5]) :=
  (compute_time_feature_correct [5, 4, 3, 2, 1, 0] (List.cons_ne_nil _ _)).2.1

/-- C5: `end_of_life` (resp. `predicted_end_of_life`) is `time[i]` at the
first index `i` where `y_true` (resp. `y_pred`) equals exactly `0`, and is
the extrapolation `time[last] + value[last]` when no element equals `0`;
both functions are total. -/
theorem end_of_life_first_zero (L : FittedLife) :
    (∀ i, i < L.y_true.length → L.y_true.getD i 0 = 0 →
      (∀ j, j < i → L.y_true.getD j 0 ≠ 0) → L.end_of_life = L.time.getD i 0) ∧
    ((∀ i, i < L.y_true.length → L.y_true.getD i 0 ≠ 0) →
      L.end_of_life = L.time.getD (L.time.length - 1) 0 +
        L.y_true.getD (L.y_true.length - 1) 0) ∧
    (∀ i, i < L.y_pred.length → L.y_pred.getD i 0 = 0 →
      (∀ j, j < i → L.y_pred.getD j 0 ≠ 0) →
      L.predicted_end_of_life = L.time.getD i 0) ∧
    ((∀ i, i < L.y_pred.length → L.y_pred.getD i 0 ≠ 0) →
      L.predicted_end_of_life = L.time.getD (L.time.length - 1) 0 +
        L.y_pred.getD (L.y_pred.length - 1) 0) := by
  refine ⟨?_, ?_, ?_, ?_⟩
  · intro i hi hz hmin
    obtain ⟨t, ht⟩ := whereIdxs_head_of (fun v => decide (v = 0)) L.y_true i hi
      (by simpa using hz) (fun j hj => by simpa using hmin j hj)
    simp [FittedLife.end_of_life, ht]
  · intro h
    have hnil : whereIdxs (fun v => decide (v = 0)) L.y_true = [] :=
      whereIdxs_nil_of _ _ (fun i hi => by simpa using h i hi)
    simp [FittedLife.end_of_life, hnil]
  · intro i hi hz hmin
    obtain ⟨t, ht⟩ := whereIdxs_head_of (fun v => decide (v = 0)) L.y_pred i hi
      (by simpa using hz) (fun j hj => by simpa using hmin j hj)
    simp [FittedLife.predicted_end_of_life, ht]
  · intro h
    have hnil : whereIdxs (fun v => decide (v = 0)) L.y_pred = [] :=
      whereIdxs_nil_of _ _ (fun i hi => by simpa using h i hi)
    simp [FittedLife.predicted_end_of_life, hnil]

/-- Witness for C5: on `exampleLife` no true value is `0`, so `end_of_life`
extrapolates from the last sample. -/
theorem end_of_life_first_zero_witness :
    exampleLife.end_of_life =
      exampleLife.time.getD (exampleLife.time.length - 1) 0 +
        exampleLife.y_true.getD (exampleLife.y_true.length - 1) 0 :=
  (end_of_life_first_zero exampleLife).2.1 (by
    intro i hi
    simp only [exampleLife, FittedLife.ofTimeNone, List.length_cons,
      List.length_nil] at hi ⊢
    interval_cases i <;> norm_num)


/-- The epsilon guard `0.0000000001` used in `metric_J_from_cv`. -/
def eps : ℚ := 1 / 10000000000

/-- Numpy's implicit bool-to-number conversion. -/
def boolToQ (b : Bool) : ℚ := if b then 1 else 0

/-- `np.max` on a nonempty array (the empty case, on which numpy raises, is
given the junk value `0`). -/
def npMax : List ℚ → ℚ
  | [] => 0
  | x :: xs => xs.foldl max x

/-- `np.mean`: sum divided by length (the empty case, on which numpy
produces NaN, is given the junk value `0`). -/
def mean (l : List ℚ) : ℚ := l.sum / l.length

/-- `np.linspace(a, b, n)`: `n` evenly spaced points from `a` to `b`. -/
def linspace (a b : ℚ) (n : ℕ) : List ℚ :=
  if n = 1 then [a]
  else (List.range n).map (fun (i : Nat) => a + (b - a) * (i : Rat) / ((n : Rat) - 1))

/-- `metric_J_from_cv` (results.py:495-510): sweep `m` over
`np.linspace(0, window_size, n)`; per fold, normalize the unexpected-break
vector and the unexploited-lifetime vector each by its maximum plus the
epsilon guard, scale by `q1` resp. `q2`, add elementwise, take the fold
mean, and average the fold means. -/
def metric_J_from_cv (lives : List (List FittedLife)) (window_size : Rat)
    (n : Nat) (q1 q2 : Rat) : List Rat × List Rat :=
  let windows := linspace 0 window_size n
  let J := windows.map (fun m =>
    mean (lives.map (fun r =>
      let ub_cv_list := r.map (fun life => boolToQ ( life.unexpected_break m))
      let ub_scaled := ub_cv_list.map (fun x => x / (npMax ub_cv_list + eps) * q1)
      let ul_cv_list := r.map (fun life => life.unexploited_lifetime m)
      let ul_scaled := ul_cv_list.map (fun x => x / (npMax ul_cv_list + eps) * q2)
      let values := List.zipWith (fun a b => a + b) ub_scaled ul_scaled
      mean values)))
  (windows, J)

theorem linspace_length (a b : Rat) (n : Nat) : (linspace a b n).length = n := by
  by_cases h : n = 1
  · subst h; rfl
  · rw [linspace, if_neg h, List.length_map, List.length_range]

theorem unexploited_lifetime_nonneg (L : FittedLife) (m : Rat) :
    0 ≤ L.unexploited_lifetime m := by
  simp only [FittedLife.unexploited_lifetime]
  by_cases h : L.maintenance_point m < L.end_of_life
  · rw [if_pos h]; linarith
  · rw [if_neg h]

theorem foldl_max_le_init (l : List Rat) (x y : Rat) (h : x ≤ y) :
    x ≤ l.foldl max y := by
  induction l generalizing y with
  | nil => exact h
  | cons a l ih => exact ih (max y a) (le_trans h (le_max_left y a))

theorem npMax_nonneg (l : List Rat) (h : ∀ x ∈ l, 0 ≤ x) : 0 ≤ npMax l := by
  cases l with
  | nil => exact le_refl 0
  | cons x xs =>
    exact foldl_max_le_init xs 0 x (h x (List.mem_cons_self _ _))

/-- C6: `metric_J_from_cv` sweeps `m` over `n` evenly spaced points in
`[0, window_size]`, returns one combined cost value per horizon point, and
every normalization denominator `max + 1e-10` is strictly positive, so no
division by zero ever occurs. -/
theorem metric_J_from_cv_correct (lives : List (List FittedLife))
    (window_size : Rat) (n : Nat) (q1 q2 : Rat)
    (hne : lives ≠ []) (hfolds : ∀ r ∈ lives, r ≠ []) :
    (metric_J_from_cv lives window_size n q1 q2).1 = linspace 0 window_size n ∧
    (metric_J_from_cv lives window_size n q1 q2).2.length = n ∧
    (∀ (m : Rat), ∀ r ∈ lives,
      0 < npMax (r.map (fun life => boolToQ ( life.unexpected_break m))) + eps ∧
      0 < npMax (r.map (fun life => life.unexploited_lifetime m)) + eps) := by
  refine ⟨rfl, ?_, ?_⟩
  · show (List.map _ (linspace 0 window_size n)).length = n
    rw [List.length_map, linspace_length]
  · intro m r hr
    have heps : 0 < eps := by norm_num [eps]
    constructor
    · have h1 : 0 ≤ npMax (r.map (fun life => boolToQ ( life.unexpected_break m))) := by
        apply npMax_nonneg
        intro x hx
        obtain ⟨life, _, rfl⟩ := List.mem_map.mp hx
        by_cases hb : life.unexpected_break m <;> simp [boolToQ, hb]
      linarith
    · have h1 : 0 ≤ npMax (r.map (fun life => life.unexploited_lifetime m)) := by
        apply npMax_nonneg
        intro x hx
        obtain ⟨life, _, rfl⟩ := List.mem_map.mp hx
        exact unexploited_lifetime_nonneg life m
      linarith

/-- Witness for C6 on a single fold holding `exampleLife`. -/
theorem metric_J_from_cv_correct_witness :
    (metric_J_from_cv [[exampleLife]] 1 2 1 1).2.length = 2 :=
  (metric_J_from_cv_correct [[exampleLife]] 1 2 1 1
    (List.cons_ne_nil _ _)
    (fun r hr => by
      rw [List.mem_singleton.mp hr]
      exact List.cons_ne_nil _ _)).2.1


/-- A numpy float that may be NaN: `none` stands for NaN. -/
def hasNaN (l : List (Option Rat)) : Bool := l.any (fun x => x.isNone)

/-- Python slice `l[a:b]` (as produced by `range(a, b)` fancy indexing). -/
def slice {A : Type} (l : List A) (a b : Nat) : List A := (l.drop a).take (b - a)

/-- Strip the NaN markers of a NaN-free array. -/
def denan (l : List (Option Rat)) : List Rat := l.filterMap id

/-- `split_lives` (results.py:404-445): for each retained life range, skip
it silently when the predicted slice contains a NaN, otherwise construct a
`FittedLife` from the two slices (with `time=None`, the default of
`split_lives_from_results`). -/
def split_lives (y_true : List Rat) (y_pred : List (Option Rat))
    (RUL_threshold : Option Rat) : List FittedLife :=
  (split_lives_indices y_true).filterMap (fun r =>
    if hasNaN (slice y_pred r.1 r.2) then none
    else some (FittedLife.ofTimeNone (slice y_true r.1 r.2)
      (denan (slice y_pred r.1 r.2)) RUL_threshold))

theorem filterMap_if_length {A B : Type} (p : A → Bool) (f : A → B) (l : List A) :
    (l.filterMap (fun x => if p x then none else some (f x))).length =
      (l.filter (fun x => !(p x))).length := by
  induction l with
  | nil => rfl
  | cons a l ih =>
    by_cases h : p a <;> simp [List.filter_cons, h, List.filterMap_cons, ih]

/-- C7: `split_lives` returns one `FittedLife` per retained life range whose
predicted slice is NaN-free; ranges whose predicted slice contains a NaN
are silently dropped, so the result may be shorter than the list of
detected ranges, and a range contributes a life exactly when it is
NaN-free. -/
theorem split_lives_drops_nan (y_true : List Rat) (y_pred : List (Option Rat))
    (RUL_threshold : Option Rat) :
    (split_lives y_true y_pred RUL_threshold).length =
      ((split_lives_indices y_true).filter
        (fun r => !(hasNaN (slice y_pred r.1 r.2)))).length ∧
    (split_lives y_true y_pred RUL_threshold).length ≤
      (split_lives_indices y_true).length ∧
    split_lives y_true y_pred RUL_threshold =
      ((split_lives_indices y_true).filter
          (fun r => !(hasNaN (slice y_pred r.1 r.2)))).map
        (fun r => FittedLife.ofTimeNone (slice y_true r.1 r.2)
          (denan (slice y_pred r.1 r.2)) RUL_threshold) := by
  refine ⟨?_, ?_, ?_⟩
  · exact filterMap_if_length _ _ _
  · rw [split_lives]
    exact List.length_filterMap_le _ _
  · rw [split_lives]
    induction split_lives_indices y_true with
    | nil => rfl
    | cons r rs ih =>
      by_cases h : hasNaN (slice y_pred r.1 r.2) <;>
        simp [List.filterMap_cons, List.filter_cons, h, ih]


/-- The sample-selection mask of `CVResults._add_fold_result`
(results.py:118-136): indices whose true value lies in
`[bin_edges[j], bin_edges[j+1]]`, inclusive at both ends. -/
def binIndices (bin_edges y_true : List Rat) (j : Nat) : List Nat :=
  whereIdxs (fun v => decide (bin_edges.getD j 0 ≤ v) &&
    decide (v ≤ bin_edges.getD (j + 1) 0)) y_true

/-- The per-bin error vector `y_true[indices] - y_pred[indices]`. -/
def binErrors (bin_edges y_true y_pred : List Rat) (j : Nat) : List Rat :=
  (binIndices bin_edges y_true j).map (fun i => y_true.getD i 0 - y_pred.getD i 0)

/-- One fold's row of the `CVResults` statistics arrays, plus the retained
raw error vectors. -/
structure FoldResult where
  mean_error : List Rat
  mae : List Rat
  mse : List Rat
  errors : List (List Rat)

/-- One iteration of the bin loop of `_add_fold_result`: an empty bin is
skipped (`continue`), otherwise the three statistics at `j` are assigned
and the raw error vector is appended. -/
def foldStep (bin_edges y_true y_pred : List Rat) (acc : FoldResult) (j : Nat) :
    FoldResult :=
  if binIndices bin_edges y_true j = [] then acc
  else
    { mean_error := acc.mean_error.set j (mean (binErrors bin_edges y_true y_pred j)),
      mae := acc.mae.set j (mean ((binErrors bin_edges y_true y_pred j).map (fun e => |e|))),
      mse := acc.mse.set j (mean ((binErrors bin_edges y_true y_pred j).map (fun e => e ^ 2))),
      errors := acc.errors ++ [binErrors bin_edges y_true y_pred j] }

/-- `CVResults._add_fold_result` for one fold, starting from the zero rows
allocated in `CVResults.__init__` (results.py:105-116). -/
def _add_fold_result (bin_edges y_true y_pred : List Rat) : FoldResult :=
  (List.range (bin_edges.length - 1)).foldl (foldStep bin_edges y_true y_pred)
    { mean_error := List.replicate (bin_edges.length - 1) 0,
      mae := List.replicate (bin_edges.length - 1) 0,
      mse := List.replicate (bin_edges.length - 1) 0,
      errors := [] }

theorem mem_whereIdxs (p : Rat → Bool) (l : List Rat) (i : Nat) :
    i ∈ whereIdxs p l ↔ i < l.length ∧ p (l.getD i 0) = true := by
  induction l generalizing i with
  | nil => simp [whereIdxs]
  | cons x xs ih =>
    cases i with
    | zero =>
      by_cases h : p x <;> simp [whereIdxs, h]
    | succ n =>
      by_cases h : p x <;>
        simp [whereIdxs, h, ih, Nat.succ_lt_succ_iff]

theorem foldl_invariant {A B : Type} (P : B → Prop) (f : B → A → B) (l : List A)
    (b : B) (h0 : P b) (hstep : ∀ acc a, a ∈ l → P acc → P (f acc a)) :
    P (l.foldl f b) := by
  induction l generalizing b with
  | nil => exact h0
  | cons x xs ih =>
    exact ih (f b x) (hstep b x (List.mem_cons_self _ _) h0)
      (fun acc a ha hP => hstep acc a (List.mem_cons_of_mem _ ha) hP)

theorem getD_replicate_zero (n j : Nat) : (List.replicate n (0 : Rat)).getD j 0 = 0 := by
  rw [List.getD_eq_getElem?_getD, List.getElem?_replicate]
  by_cases h : j < n <;> simp [h]

theorem getD_set_ne (l : List Rat) (k j : Nat) (v : Rat) (h : k ≠ j) :
    (l.set k v).getD j 0 = l.getD j 0 := by
  rw [List.getD_eq_getElem?_getD, List.getD_eq_getElem?_getD, List.getElem?_set_ne h]

theorem add_fold_result_empty_bin (bin_edges y_true y_pred : List Rat) (j : Nat)
    (h : binIndices bin_edges y_true j = []) :
    (_add_fold_result bin_edges y_true y_pred).mean_error.getD j 0 = 0 ∧
    (_add_fold_result bin_edges y_true y_pred).mae.getD j 0 = 0 ∧
    (_add_fold_result bin_edges y_true y_pred).mse.getD j 0 = 0 := by
  rw [_add_fold_result]
  refine foldl_invariant
    (fun (acc : FoldResult) => acc.mean_error.getD j 0 = 0 ∧ acc.mae.getD j 0 = 0 ∧
      acc.mse.getD j 0 = 0) _ _ _
    ⟨getD_replicate_zero _ _, getD_replicate_zero _ _, getD_replicate_zero _ _⟩ ?_
  intro acc k hk hP
  rw [foldStep]
  by_cases hbk : binIndices bin_edges y_true k = []
  · rw [if_pos hbk]; exact hP
  · rw [if_neg hbk]
    have hkj : k ≠ j := fun he => hbk (he ▸ h)
    exact ⟨(getD_set_ne _ _ _ _ hkj).trans hP.1,
      (getD_set_ne _ _ _ _ hkj).trans hP.2.1,
      (getD_set_ne _ _ _ _ hkj).trans hP.2.2⟩

theorem foldl_errors (bin_edges y_true y_pred : List Rat) (ks : List Nat)
    (acc : FoldResult) :
    (ks.foldl (foldStep bin_edges y_true y_pred) acc).errors =
      acc.errors ++ (ks.filter
        (fun k => !((binIndices bin_edges y_true k).isEmpty))).map
        (binErrors bin_edges y_true y_pred) := by
  induction ks generalizing acc with
  | nil => simp
  | cons k ks ih =>
    rw [List.foldl_cons, ih, List.filter_cons]
    by_cases h : binIndices bin_edges y_true k = []
    · simp [foldStep, h, List.isEmpty_iff]
    · simp [foldStep, h, List.isEmpty_iff]

/-- C8: a bin `j` collects exactly the sample indices whose true value lies
in `[edge_j, edge_(j+1)]`, inclusive at both ends; a sample whose true
value equals a shared edge belongs to both adjacent bins (for ordered
edges); an empty bin leaves its `mean_error`, `mae` and `mse` entries at
`0` and appends nothing to the raw errors list, which holds exactly the
error vectors of the nonempty bins in order. -/
theorem cv_bin_membership (bin_edges y_true y_pred : List Rat) (i j : Nat) :
    (i ∈ binIndices bin_edges y_true j ↔
      i < y_true.length ∧ bin_edges.getD j 0 ≤ y_true.getD i 0 ∧
        y_true.getD i 0 ≤ bin_edges.getD (j + 1) 0) ∧
    (i < y_true.length → y_true.getD i 0 = bin_edges.getD (j + 1) 0 →
      bin_edges.getD j 0 ≤ bin_edges.getD (j + 1) 0 →
      bin_edges.getD (j + 1) 0 ≤ bin_edges.getD (j + 2) 0 →
      i ∈ binIndices bin_edges y_true j ∧ i ∈ binIndices bin_edges y_true (j + 1)) ∧
    (binIndices bin_edges y_true j = [] →
      (_add_fold_result bin_edges y_true y_pred).mean_error.getD j 0 = 0 ∧
      (_add_fold_result bin_edges y_true y_pred).mae.getD j 0 = 0 ∧
      (_add_fold_result bin_edges y_true y_pred).mse.getD j 0 = 0) ∧
    (_add_fold_result bin_edges y_true y_pred).errors =
      ((List.range (bin_edges.length - 1)).filter
        (fun k => !((binIndices bin_edges y_true k).isEmpty))).map
        (binErrors bin_edges y_true y_pred) := by
  have hmem : ∀ j' : Nat, i ∈ binIndices bin_edges y_true j' ↔
      i < y_true.length ∧ bin_edges.getD j' 0 ≤ y_true.getD i 0 ∧
        y_true.getD i 0 ≤ bin_edges.getD (j' + 1) 0 := by
    intro j'
    rw [binIndices, mem_whereIdxs]
    simp [Bool.and_eq_true, and_assoc]
  refine ⟨hmem j, ?_, add_fold_result_empty_bin bin_edges y_true y_pred j, ?_⟩
  · intro hi hv h1 h2
    constructor
    · exact (hmem j).mpr ⟨hi, by rw [hv]; exact h1, by rw [hv]⟩
    · refine (hmem (j + 1)).mpr ⟨hi, by rw [hv], ?_⟩
      rw [hv]
      exact h2
  · rw [_add_fold_result, foldl_errors]
    rfl

/-- Witness for C8: with edges `[0,1,2]` the sample with true value `1`
sits on the shared edge and belongs to bins `0` and `1`. -/
theorem cv_bin_membership_witness :
    0 ∈ binIndices [0, 1, 2] [1] 0 ∧ 0 ∈ binIndices [0, 1, 2] [1] 1 :=
  (cv_bin_membership [0, 1, 2] [1] [0] 0 0).2.1 (by norm_num)
    (by norm_num) (by norm_num) (by norm_num)


/-- `split_lives_from_results` (results.py:448-451): unpack a cv record
(its true and predicted sequences) and call `split_lives` with the default
`RUL_threshold=None`. -/
def split_lives_from_results (d : List Rat × List (Option Rat)) : List FittedLife :=
  split_lives d.1 d.2 none

/-- Python call semantics for `metric_J_from_cv(lives, window_size, n)`:
`q1` and `q2` are required positional parameters (results.py:495), so a
call that does not supply them raises `TypeError` before the body runs. -/
def metric_J_from_cv_call (lives : List (List FittedLife)) (window_size : Rat)
    (n : Nat) (q1 q2 : Option Rat) : Except String (List Rat × List Rat) :=
  match q1, q2 with
  | some a, some b => Except.ok (metric_J_from_cv lives window_size n a b)
  | _, _ => Except.error
      "TypeError: missing required positional arguments q1 and q2"

/-- `metric_J` (results.py:513-515): splits each cv record into lives, then
calls `metric_J_from_cv(lives_cv, window_size, step)` without `q1`, `q2`. -/
def metric_J (d : List (List Rat × List (Option Rat))) (window_size : Rat)
    (step : Nat) : Except String (List Rat × List Rat) :=
  let lives_cv := d.map (fun cv => split_lives_from_results cv)
  metric_J_from_cv_call lives_cv window_size step none none

/-- C9: the top-level `metric_J` always raises `TypeError` — it omits the
required positional arguments `q1`, `q2` of `metric_J_from_cv` — while the
underlying metric is computed as soon as both arguments are supplied, so
the combined-cost metric is unreachable through this entry point. -/
theorem metric_J_raises (d : List (List Rat × List (Option Rat)))
    (window_size : Rat) (step : Nat) :
    metric_J d window_size step = Except.error
      "TypeError: missing required positional arguments q1 and q2" ∧
    (∀ (lives : List (List FittedLife)) (w : Rat) (n : Nat) (q1 q2 : Rat),
      metric_J_from_cv_call lives w n (some q1) (some q2) =
        Except.ok (metric_J_from_cv lives w n q1 q2)) :=
  ⟨rfl, fun _ _ _ _ _ => rfl⟩

/-- The Python `time` argument of `FittedLife.__init__`: the signature
admits `np.ndarray` or `int`. -/
inductive TimeArg where
  | ndarray (t : List Rat)
  | int (t : Int)

/-- `FittedLife.__init__` (results.py:185-212).  When `time` is given and
is an `np.ndarray` it is stored verbatim; when it is given but not an
ndarray, the constructor evaluates `np.linspace(0, y_true[0], n=len(y_true))`
— numpy's `linspace` has no keyword parameter `n` (it is `num`), so the
call raises `TypeError`; when `time` is `None` the axis is reconstructed
by `compute_time_feature`. -/
def FittedLife.init (y_true y_pred : List Rat) (time : Option TimeArg)
    (RUL_threshold : Option Rat) : Except String FittedLife :=
  match time with
  | some (TimeArg.ndarray t) =>
    Except.ok
      { y_true := y_true, y_pred := y_pred, time := t,
        degrading_start := _degrading_start y_true RUL_threshold }
  | some (TimeArg.int _) =>
    Except.error "TypeError: linspace() got an unexpected keyword argument n"
  | none =>
    Except.ok
      { y_true := y_true, y_pred := y_pred,
        time := (compute_time_feature y_true RUL_threshold).2,
        degrading_start := (compute_time_feature y_true RUL_threshold).1 }

/-- C10: constructing a `FittedLife` with a `time` argument that is not an
ndarray (the `int` form the signature allows) raises `TypeError`; the only
usable forms of `time` are `None` (axis reconstructed) or an ndarray used
verbatim. -/
theorem fitted_life_init_time_int_raises (y_true y_pred : List Rat)
    (RUL_threshold : Option Rat) :
    (∀ k : Int, FittedLife.init y_true y_pred (some (TimeArg.int k)) RUL_threshold =
      Except.error "TypeError: linspace() got an unexpected keyword argument n") ∧
    (∀ t : List Rat, ∃ L : FittedLife,
      FittedLife.init y_true y_pred (some (TimeArg.ndarray t)) RUL_threshold =
        Except.ok L ∧ L.time = t) ∧
    (∃ L : FittedLife, FittedLife.init y_true y_pred none RUL_threshold =
      Except.ok L ∧ L.time = (compute_time_feature y_true RUL_threshold).2) :=
  ⟨fun _ => rfl, fun _ => ⟨_, rfl, rfl⟩, ⟨_, rfl, rfl⟩⟩

end RulPm
